import Mathlib

/-!
# Invoice Scanner — formal model

A shallow embedding of the Invoice-Scanner application (src/App.tsx,
src/types.ts and the Gemini service module) together with theorems
checking the natural-language specification against it.

JS strings are modelled as Lean `String`s, JS numbers as `Int`
(all the numeric values manipulated here are integral), optional/undefined
fields as `Option`, and the two fallible external calls (file encoding and
the inference endpoint) as oracle parameters returning `Except Unit _`.
-/

/-! ## Data model (src/types.ts) -/

/-- `LineItem` from src/types.ts. -/
structure LineItem where
  description : String
  quantity : Int
  unitPrice : Int
  total : Int
deriving DecidableEq, Repr, Inhabited

/-- `InvoiceData` from src/types.ts. -/
structure InvoiceData where
  invoiceDate : String
  invoiceNumber : String
  poNumber : String
  quotationNumber : String
  totalAmount : Int
  currency : String
  items : List LineItem
deriving DecidableEq, Repr, Inhabited

/-- `AppStatus` from src/types.ts. -/
inductive AppStatus where
  | IDLE
  | ANALYZING
  | SUCCESS
  | ERROR
deriving DecidableEq, Repr, Inhabited

/-- A browser `File` object, reduced to the part the app reads (`file.name`). -/
structure JsFile where
  name : String
deriving DecidableEq, Repr, Inhabited

/-- `InvoiceSessionItem` from src/types.ts. -/
structure InvoiceSessionItem where
  id : String
  file : JsFile
  previewUrl : String
  status : AppStatus
  result : Option InvoiceData
  error : Option String
deriving DecidableEq, Repr, Inhabited

/-! ## String helpers mirroring the JavaScript primitives used by App.tsx -/

/-- JS `x || ''` on a string: the empty string is falsy, so the default is
taken exactly when `s` is empty. -/
def jsOr (s d : String) : String :=
  if s.isEmpty then d else s

/-- JS `Array.prototype.join(sep)`. -/
def jsJoin (sep : String) : List String → String
  | [] => ""
  | a :: rest => rest.foldl (fun acc x => acc ++ sep ++ x) a

/-- JS `s.replace(/"/g, "'")` — every double quote becomes an apostrophe. -/
def replaceQuotesWithApos (s : String) : String :=
  ⟨s.data.map (fun c => if c = '"' then '\'' else c)⟩

/-- JS `s.replace(/"/g, '""')` — every double quote is doubled. -/
def doubleQuotes (s : String) : String :=
  ⟨(s.data.map (fun c => if c = '"' then ['"', '"'] else [c])).flatten⟩

/-- JS `s.trim()` — strip whitespace from both ends. -/
def jsTrim (s : String) : String :=
  ⟨((s.data.dropWhile Char.isWhitespace).reverse.dropWhile Char.isWhitespace).reverse⟩

/-! ## The CSV exporter (src/App.tsx, `handleExportCSV`, lines 103–157) -/

/-- The `headers.join(',')` line of `handleExportCSV`. -/
def headerLine : String :=
  jsJoin "," ["File Name", "Invoice Date", "Invoice Number", "PO Number",
    "Quotation Number", "Currency", "Items Details", "Invoice Total Amount"]

/-- `data.items.filter(lineItem => lineItem.total !== 0)` — the `validItems`
local of `handleExportCSV`. -/
def validItems (data : InvoiceData) : List LineItem :=
  data.items.filter (fun lineItem => lineItem.total != 0)

/-- One entry of the `itemsSummary` map in `handleExportCSV`:
`` `${safeDesc} (Qty: ${q}, Unit: ${u}, Total: ${t})` `` where `safeDesc`
is the description with quotes replaced by apostrophes, then trimmed. -/
def renderLineItem (lineItem : LineItem) : String :=
  jsTrim (replaceQuotesWithApos lineItem.description) ++
    " (Qty: " ++ toString lineItem.quantity ++
    ", Unit: " ++ toString lineItem.unitPrice ++
    ", Total: " ++ toString lineItem.total ++ ")"

/-- The `itemsSummary` local of `handleExportCSV`: the rendered valid items
joined with newlines. -/
def itemsSummary (data : InvoiceData) : String :=
  jsJoin "\n" ((validItems data).map renderLineItem)

/-- The `row` array built for one success item in `handleExportCSV`
(lines 135–144), as the list of cell strings before `join(',')`. -/
def rowCells (name : String) (data : InvoiceData) : List String :=
  ["\"" ++ doubleQuotes name ++ "\"",
   "\"" ++ jsOr data.invoiceDate "" ++ "\"",
   "\"" ++ jsOr data.invoiceNumber "" ++ "\"",
   "\"" ++ jsOr data.poNumber "" ++ "\"",
   "\"" ++ jsOr data.quotationNumber "" ++ "\"",
   "\"" ++ jsOr data.currency "" ++ "\"",
   "\"" ++ itemsSummary data ++ "\"",
   toString data.totalAmount]

/-- One CSV row of `handleExportCSV`: `row.join(',')`. -/
def rowOf (item : InvoiceSessionItem) : String :=
  jsJoin "," (rowCells item.file.name (item.result.getD default))

/-- The `successItems` filter of `handleExportCSV`:
`items.filter(i => i.status === AppStatus.SUCCESS && i.result)`. -/
def successItems (items : List InvoiceSessionItem) : List InvoiceSessionItem :=
  items.filter (fun i => i.status == AppStatus.SUCCESS && i.result.isSome)

/-- `handleExportCSV` (src/App.tsx lines 103–157): `none` models the early
`return` (no file produced); otherwise the result is the full text content of
the downloaded blob, byte-order mark included. -/
def handleExportCSV (items : List InvoiceSessionItem) : Option String :=
  let succ := successItems items
  if succ.length == 0 then none
  else
    let csvContent := succ.foldl (fun acc item => acc ++ rowOf item ++ "\n") (headerLine ++ "\n")
    some ("\uFEFF" ++ csvContent)

/-! ## The analyze flow (src/App.tsx, `analyzeItem`, lines 48–59)

The three `setItems` updates of the flow, each a whole-collection
replacement keyed by the target id. -/

/-- Line 49: `{ ...i, status: ANALYZING, error: undefined }` on the target. -/
def markAnalyzing (id : String) (items : List InvoiceSessionItem) : List InvoiceSessionItem :=
  items.map (fun i => if i.id = id then { i with status := AppStatus.ANALYZING, error := none } else i)

/-- Line 54: `{ ...i, status: SUCCESS, result }` on the target. -/
def applySuccess (id : String) (result : InvoiceData) (items : List InvoiceSessionItem) :
    List InvoiceSessionItem :=
  items.map (fun i => if i.id = id then { i with status := AppStatus.SUCCESS, result := some result } else i)

/-- Line 57: `{ ...i, status: ERROR, error: "識別失敗" }` on the target. -/
def applyError (id : String) (items : List InvoiceSessionItem) : List InvoiceSessionItem :=
  items.map (fun i => if i.id = id then { i with status := AppStatus.ERROR, error := some "識別失敗" } else i)

/-- Observable events of one extraction, in program order. A `request` event
records the store contents at the moment the endpoint request is issued. -/
inductive ExEvent where
  | mark (id : String)
  | request (id : String) (store : List InvoiceSessionItem)
  | final (id : String)
deriving DecidableEq, Repr

/-- The session-item id an event concerns. -/
def ExEvent.ident : ExEvent → String
  | .mark id => id
  | .request id _ => id
  | .final id => id

/-- `analyzeItem` (src/App.tsx lines 48–59) run against a store `s`:
mark the item ANALYZING (clearing the error), encode the file, issue the
endpoint request, then apply the SUCCESS or ERROR completion update.
`encode` models `fileToBase64` (which can reject) and `endpoint` models
`analyzeInvoiceImage` (which can throw); any failure lands in the single
`catch` block.  Returns the resulting store and the event trace. -/
def analyzeItem (encode : JsFile → Except Unit String)
    (endpoint : String → Except Unit InvoiceData)
    (item : InvoiceSessionItem) (s : List InvoiceSessionItem) :
    List InvoiceSessionItem × List ExEvent :=
  let s1 := markAnalyzing item.id s
  match encode item.file with
  | Except.error _ => (applyError item.id s1, [ExEvent.mark item.id, ExEvent.final item.id])
  | Except.ok base64 =>
    match endpoint base64 with
    | Except.ok result =>
        (applySuccess item.id result s1,
         [ExEvent.mark item.id, ExEvent.request item.id s1, ExEvent.final item.id])
    | Except.error _ =>
        (applyError item.id s1,
         [ExEvent.mark item.id, ExEvent.request item.id s1, ExEvent.final item.id])

/-- The `pendingItems` selection of `handleAnalyzeAll` (line 68). -/
def pendingFilter (items : List InvoiceSessionItem) : List InvoiceSessionItem :=
  items.filter (fun i => i.status == AppStatus.IDLE || i.status == AppStatus.ERROR)

/-- The `for … await` loop body of `handleAnalyzeAll` (lines 71–73): run
`analyzeItem` on each selected document in order, each against the store the
previous one produced, concatenating the traces. -/
def runBatch (encode : JsFile → Except Unit String)
    (endpoint : String → Except Unit InvoiceData) :
    List InvoiceSessionItem → List InvoiceSessionItem →
    List InvoiceSessionItem × List ExEvent
  | [], s => (s, [])
  | item :: rest, s =>
    let r := analyzeItem encode endpoint item s
    let r' := runBatch encode endpoint rest r.1
    (r'.1, r.2 ++ r'.2)

/-- `handleAnalyzeAll` (src/App.tsx lines 67–74). -/
def handleAnalyzeAll (encode : JsFile → Except Unit String)
    (endpoint : String → Except Unit InvoiceData)
    (items : List InvoiceSessionItem) :
    List InvoiceSessionItem × List ExEvent :=
  runBatch encode endpoint (pendingFilter items) items

/-! ## Removal and upload (src/App.tsx) -/

/-- `handleRemoveItem` (src/App.tsx lines 76–95).  Returns the new item
collection, the new active selection, and the list of preview references
revoked by the call (`URL.revokeObjectURL`). -/
def handleRemoveItem (id : String) (items : List InvoiceSessionItem)
    (activeItemId : Option String) :
    List InvoiceSessionItem × Option String × List String :=
  let itemToRemove := items.find? (fun i => i.id == id)
  let revoked := match itemToRemove with
    | some item => [item.previewUrl]
    | none => []
  let newItems := items.filter (fun i => i.id != id)
  let newActive :=
    if activeItemId = some id then
      match newItems with
      | [] => none
      | first :: _ => some first.id
    else activeItemId
  (newItems, newActive, revoked)

/-! ## The extraction client request (src/services/geminiService.ts)

`analyzeInvoiceImage` derives the request's `mimeType` and `inlineData`
payload from its input with the regex `/^data:(.*?);base64,/` — a `match`
to read the declared type, a `replace` to strip the header. -/

/-- A character matched by `.` in a JS regex (anything but a line
terminator). -/
def regexDotChar (c : Char) : Bool :=
  c ≠ '\n' && c ≠ '\r' && c ≠ '\u2028' && c ≠ '\u2029'

/-- Lazy scan for the earliest `";base64,"` marker, as `(.*?);base64,`
matches: at each position first try the literal marker, otherwise consume one
`.`-matchable character into the captured type. -/
def scanBase64 : List Char → Option (List Char × List Char)
  | [] => none
  | c :: rest =>
    if ";base64,".data.isPrefixOf (c :: rest) then
      some ([], (c :: rest).drop 8)
    else if regexDotChar c then
      (scanBase64 rest).map (fun p => (c :: p.1, p.2))
    else none

/-- The full header match `/^data:(.*?);base64,/`: the captured type and the
remainder after the header, when the input starts with such a header. -/
def matchDataUriHeader (s : String) : Option (List Char × List Char) :=
  if "data:".data.isPrefixOf s.data then scanBase64 (s.data.drop 5) else none

/-- The `(mimeType, cleanBase64)` pair `analyzeInvoiceImage` puts into the
request's `inlineData` part (src/services/geminiService.ts lines 53–58):
the captured type or the `'image/jpeg'` default, and the input with the
header stripped. -/
def buildInlineData (base64Data : String) : String × String :=
  match matchDataUriHeader base64Data with
  | some p => (⟨p.1⟩, ⟨p.2⟩)
  | none => ("image/jpeg", base64Data)

/-- A string that begins with a data-URI header `data:<type>;base64,`
(spec-side characterization; `<type>` is what `.*?` can match: any run of
non-line-terminator characters). -/
def HasDataUriHeader (s : String) : Prop :=
  ∃ t rest, s.data = "data:".data ++ t ++ ";base64,".data ++ rest ∧
    ∀ c ∈ t, regexDotChar c

/-! ## Helper lemmas -/

theorem digitChar_ne_quote (n : Nat) : Nat.digitChar n ≠ '"' := by
  rcases Nat.lt_or_ge n 16 with h | h
  · interval_cases n <;> decide
  · unfold Nat.digitChar
    repeat rw [if_neg (by omega)]
    decide

theorem toDigitsCore_ne_quote (b : Nat) :
    ∀ (fuel n : Nat) (ds : List Char), (∀ c ∈ ds, c ≠ '"') →
      ∀ c ∈ Nat.toDigitsCore b fuel n ds, c ≠ '"' := by
  intro fuel
  induction fuel with
  | zero => intro n ds hds c hc; exact hds c hc
  | succ f ih =>
    intro n ds hds c hc
    simp only [Nat.toDigitsCore] at hc
    have hcons : ∀ x ∈ Nat.digitChar (n % b) :: ds, x ≠ '"' := by
      intro x hx
      rcases List.mem_cons.mp hx with h | h
      · exact h ▸ digitChar_ne_quote (n % b)
      · exact hds x h
    split at hc
    · exact hcons c hc
    · exact ih (n / b) (Nat.digitChar (n % b) :: ds) hcons c hc

theorem natRepr_ne_quote (n : Nat) : ∀ c ∈ (Nat.repr n).data, c ≠ '"' := by
  intro c hc
  have : c ∈ Nat.toDigitsCore 10 (n + 1) n [] := hc
  exact toDigitsCore_ne_quote 10 (n + 1) n [] (by intro x hx; cases hx) c this

theorem intToString_ne_quote (i : Int) : ∀ c ∈ (toString i).data, c ≠ '"' := by
  intro c hc
  cases i with
  | ofNat m => exact natRepr_ne_quote m c hc
  | negSucc m =>
    have : c ∈ ("-" ++ Nat.repr (m + 1)).data := hc
    rw [String.data_append] at this
    rcases List.mem_append.mp this with h | h
    · rcases List.mem_singleton.mp h with rfl; decide
    · exact natRepr_ne_quote (m + 1) c h

theorem replaceQuotesWithApos_ne_quote (s : String) :
    ∀ c ∈ (replaceQuotesWithApos s).data, c ≠ '"' := by
  intro c hc
  simp only [replaceQuotesWithApos, List.mem_map] at hc
  obtain ⟨a, _, ha⟩ := hc
  by_cases h : a = '"'
  · simp [h] at ha; simp [← ha]
  · simp [h] at ha; exact ha ▸ h

theorem jsTrim_mem (s : String) : ∀ c ∈ (jsTrim s).data, c ∈ s.data := by
  intro c hc
  simp only [jsTrim, List.mem_reverse] at hc
  have h1 := (List.dropWhile_sublist (l := (s.data.dropWhile Char.isWhitespace).reverse)
    Char.isWhitespace).mem hc
  rw [List.mem_reverse] at h1
  exact (List.dropWhile_sublist (l := s.data) Char.isWhitespace).mem h1

theorem jsJoin_foldl_mem (sep : String) :
    ∀ (rest : List String) (acc : String) (c : Char),
      c ∈ (rest.foldl (fun acc x => acc ++ sep ++ x) acc).data →
      c ∈ acc.data ∨ c ∈ sep.data ∨ ∃ x ∈ rest, c ∈ x.data := by
  intro rest
  induction rest with
  | nil => intro acc c hc; exact Or.inl hc
  | cons y ys ih =>
    intro acc c hc
    simp only [List.foldl_cons] at hc
    rcases ih (acc ++ sep ++ y) c hc with h | h | ⟨x, hx, hcx⟩
    · rw [String.data_append, String.data_append] at h
      rcases List.mem_append.mp h with h' | h'
      · rcases List.mem_append.mp h' with h'' | h''
        · exact Or.inl h''
        · exact Or.inr (Or.inl h'')
      · exact Or.inr (Or.inr ⟨y, List.mem_cons_self y ys, h'⟩)
    · exact Or.inr (Or.inl h)
    · exact Or.inr (Or.inr ⟨x, List.mem_cons_of_mem y hx, hcx⟩)

theorem jsJoin_mem (sep : String) (l : List String) (c : Char)
    (hc : c ∈ (jsJoin sep l).data) : c ∈ sep.data ∨ ∃ x ∈ l, c ∈ x.data := by
  cases l with
  | nil => cases hc
  | cons a rest =>
    simp only [jsJoin] at hc
    rcases jsJoin_foldl_mem sep rest a c hc with h | h | ⟨x, hx, hcx⟩
    · exact Or.inr ⟨a, List.mem_cons_self a rest, h⟩
    · exact Or.inl h
    · exact Or.inr ⟨x, List.mem_cons_of_mem a hx, hcx⟩

theorem renderLineItem_ne_quote (lineItem : LineItem) :
    ∀ c ∈ (renderLineItem lineItem).data, c ≠ '"' := by
  intro c hc
  unfold renderLineItem at hc
  repeat rw [String.data_append] at hc
  rcases List.mem_append.mp hc with h | h
  · rcases List.mem_append.mp h with h | h
    · rcases List.mem_append.mp h with h | h
      · rcases List.mem_append.mp h with h | h
        · rcases List.mem_append.mp h with h | h
          · rcases List.mem_append.mp h with h | h
            · rcases List.mem_append.mp h with h | h
              · exact replaceQuotesWithApos_ne_quote _ c (jsTrim_mem _ c h)
              · intro hq; subst hq; revert h; decide
            · exact intToString_ne_quote _ c h
          · intro hq; subst hq; revert h; decide
        · exact intToString_ne_quote _ c h
      · intro hq; subst hq; revert h; decide
    · exact intToString_ne_quote _ c h
  · intro hq; subst hq; revert h; decide

theorem itemsSummary_ne_quote (data : InvoiceData) :
    ∀ c ∈ (itemsSummary data).data, c ≠ '"' := by
  intro c hc
  rcases jsJoin_mem "\n" ((validItems data).map renderLineItem) c hc with h | ⟨x, hx, hcx⟩
  · intro hq; subst hq; revert h; decide
  · obtain ⟨lineItem, _, rfl⟩ := List.mem_map.mp hx
    exact renderLineItem_ne_quote lineItem c hcx

theorem markAnalyzing_target (id : String) (s : List InvoiceSessionItem) :
    ∀ i ∈ markAnalyzing id s, i.id = id →
      i.status = AppStatus.ANALYZING ∧ i.error = none := by
  intro i hi hid
  obtain ⟨a, ha, rfl⟩ := List.mem_map.mp hi
  by_cases h : a.id = id
  · simp [h]
  · simp only [if_neg h] at hid ⊢
    exact absurd hid h

theorem applyError_markAnalyzing (id : String) (s : List InvoiceSessionItem) :
    applyError id (markAnalyzing id s) =
      s.map (fun i => if i.id = id then
        { i with status := AppStatus.ERROR, error := some "識別失敗" } else i) := by
  unfold applyError markAnalyzing
  rw [List.map_map]
  apply List.map_congr_left
  intro a _
  by_cases h : a.id = id
  · simp [Function.comp, h]
  · simp [Function.comp, h]

/-! ## Claim theorems -/

/-- Spec-side definition, from the spec's words: standard CSV escaping doubles
every embedded double-quote character. -/
def csvStdEscape (s : String) : String :=
  ⟨(s.data.map (fun c => if c = '"' then ['"', '"'] else [c])).flatten⟩

/-- Concrete invoice data whose invoice number contains a double quote. -/
def c1Data : InvoiceData :=
  { invoiceDate := "2024-01-01", invoiceNumber := "N\"1", poNumber := "",
    quotationNumber := "", totalAmount := 5, currency := "USD", items := [] }

/-- C1 counterexample: for the invoice-number cell (a field outside the items
cell) containing a double quote, the exporter emits the value verbatim between
quotes — it does not double the embedded quote as the claim states. -/
theorem c1_counterexample :
    (rowCells "inv.jpg" c1Data)[2]? = some "\"N\"1\"" ∧
      "\"N\"1\"" ≠ "\"" ++ csvStdEscape "N\"1" ++ "\"" := by
  constructor
  · rfl
  · decide

/-- C1 (amended): in an exported row, only the file-name cell's embedded double
quotes are escaped by doubling (standard CSV escaping); the invoice date,
invoice number, PO number, quotation number and currency cells are emitted
verbatim between quotes without escaping embedded double quotes, and the total
amount is emitted verbatim unquoted; the items cell's content contains no
double-quote character at all, every double quote of a description having been
replaced by an apostrophe. -/
theorem c1_amended (name : String) (data : InvoiceData) :
    rowCells name data =
      ["\"" ++ csvStdEscape name ++ "\"",
       "\"" ++ jsOr data.invoiceDate "" ++ "\"",
       "\"" ++ jsOr data.invoiceNumber "" ++ "\"",
       "\"" ++ jsOr data.poNumber "" ++ "\"",
       "\"" ++ jsOr data.quotationNumber "" ++ "\"",
       "\"" ++ jsOr data.currency "" ++ "\"",
       "\"" ++ itemsSummary data ++ "\"",
       toString data.totalAmount] ∧
    ∀ c ∈ (itemsSummary data).data, c ≠ '"' := by
  refine ⟨rfl, itemsSummary_ne_quote data⟩

/-- Concrete invoice data whose only line item's description contains a double
quote, for the amended-C1 witness. -/
def c1WitnessData : InvoiceData :=
  { invoiceDate := "d", invoiceNumber := "n", poNumber := "",
    quotationNumber := "", totalAmount := 3, currency := "USD",
    items := [{ description := "W\"x", quantity := 1, unitPrice := 3, total := 3 }] }

/-- Witness for the amended C1 at a concrete row whose description contains a
double quote. -/
theorem c1_amended_witness :
    'W' ∈ (itemsSummary c1WitnessData).data ∧ 'W' ≠ '"' := by
  refine ⟨by decide, ?_⟩
  exact (c1_amended "f.jpg" c1WitnessData).2 'W' (by decide)

/-! ### Concrete fixtures used by witnesses and the C2 example -/

/-- The spec's example extraction result: totalAmount 1000, currency "USD",
one line item Widget / 2 / 500 / 1000. -/
def exampleData : InvoiceData :=
  { invoiceDate := "2024-01-01", invoiceNumber := "INV-001", poNumber := "",
    quotationNumber := "", totalAmount := 1000, currency := "USD",
    items := [{ description := "Widget", quantity := 2, unitPrice := 500, total := 1000 }] }

/-- A freshly uploaded session item. -/
def itemA : InvoiceSessionItem :=
  { id := "a", file := ⟨"invoice1.jpg"⟩, previewUrl := "blob:a",
    status := AppStatus.IDLE, result := none, error := none }

/-- A second freshly uploaded session item. -/
def itemB : InvoiceSessionItem :=
  { id := "b", file := ⟨"invoice2.jpg"⟩, previewUrl := "blob:b",
    status := AppStatus.IDLE, result := none, error := none }

/-- `itemA` after a successful extraction of `exampleData`. -/
def itemASuccess : InvoiceSessionItem :=
  { itemA with status := AppStatus.SUCCESS, result := some exampleData }

/-- `itemB` after a failed extraction. -/
def itemBError : InvoiceSessionItem :=
  { itemB with status := AppStatus.ERROR, error := some "識別失敗" }

/-- Encoding oracle that always succeeds. -/
def encOk : JsFile → Except Unit String := fun _ => Except.ok "payload"

/-- Encoding oracle that always rejects. -/
def encErr : JsFile → Except Unit String := fun _ => Except.error ()

/-- Endpoint oracle that always returns the example data. -/
def endOk : String → Except Unit InvoiceData := fun _ => Except.ok exampleData

/-- Endpoint oracle that always fails (empty/unparseable response or other
exception). -/
def endErr : String → Except Unit InvoiceData := fun _ => Except.error ()

/-- C5: when an extraction fails — the encoder rejects, or the endpoint
returns empty or unparseable text — the item's status becomes ERROR with the
non-empty message "識別失敗", and every other field (id, file, preview
reference and in particular a previously stored result) is unchanged, as is
every other item of the store. -/
theorem c5_extraction_failure_error_frame
    (encode : JsFile → Except Unit String) (endpoint : String → Except Unit InvoiceData)
    (item : InvoiceSessionItem) (s : List InvoiceSessionItem)
    (hfail : encode item.file = Except.error () ∨
      ∃ base64, encode item.file = Except.ok base64 ∧ endpoint base64 = Except.error ()) :
    (analyzeItem encode endpoint item s).1 =
      s.map (fun i => if i.id = item.id then
        { i with status := AppStatus.ERROR, error := some "識別失敗" } else i) ∧
    (∀ n : Nat, ((analyzeItem encode endpoint item s).1[n]?).map
        (fun i => (i.id, i.file, i.previewUrl, i.result)) =
      (s[n]?).map (fun i => (i.id, i.file, i.previewUrl, i.result))) ∧
    "識別失敗" ≠ "" := by
  have hmain : (analyzeItem encode endpoint item s).1 =
      s.map (fun i => if i.id = item.id then
        { i with status := AppStatus.ERROR, error := some "識別失敗" } else i) := by
    rcases hfail with henc | ⟨base64, henc, hend⟩
    · simp only [analyzeItem, henc]
      exact applyError_markAnalyzing item.id s
    · simp only [analyzeItem, henc, hend]
      exact applyError_markAnalyzing item.id s
  refine ⟨hmain, ?_, by decide⟩
  intro n
  rw [hmain, List.getElem?_map, Option.map_map]
  congr 1
  funext i
  by_cases h : i.id = item.id
  · simp [h]
  · simp [h]

/-- Witness for C5: a concrete failing extraction on a one-item store. -/
theorem c5_witness :
    (encOk itemA.file = Except.error () ∨
      ∃ base64, encOk itemA.file = Except.ok base64 ∧ endErr base64 = Except.error ()) ∧
    (analyzeItem encOk endErr itemA [itemA]).1 =
      [itemA].map (fun i => if i.id = itemA.id then
        { i with status := AppStatus.ERROR, error := some "識別失敗" } else i) :=
  ⟨Or.inr ⟨"payload", rfl, rfl⟩,
   (c5_extraction_failure_error_frame encOk endErr itemA [itemA]
      (Or.inr ⟨"payload", rfl, rfl⟩)).1⟩

/-- C6: a completion update (SUCCESS or ERROR) whose target id is no longer
present in the store leaves the collection entirely unchanged. -/
theorem c6_stale_completion_noop (s : List InvoiceSessionItem) (tid : String)
    (result : InvoiceData) (habsent : ∀ i ∈ s, i.id ≠ tid) :
    applySuccess tid result s = s ∧ applyError tid s = s := by
  constructor
  · unfold applySuccess
    have h : ∀ i ∈ s, (if i.id = tid then
        { i with status := AppStatus.SUCCESS, result := some result } else i) = id i :=
      fun i hi => if_neg (habsent i hi)
    rw [List.map_congr_left h, List.map_id]
  · unfold applyError
    have h : ∀ i ∈ s, (if i.id = tid then
        { i with status := AppStatus.ERROR, error := some "識別失敗" } else i) = id i :=
      fun i hi => if_neg (habsent i hi)
    rw [List.map_congr_left h, List.map_id]

/-- Witness for C6: the completion for a removed id "gone" is a no-op on a
store still holding `itemA`. -/
theorem c6_witness :
    (∀ i ∈ [itemA], i.id ≠ "gone") ∧
    (applySuccess "gone" exampleData [itemA] = [itemA] ∧ applyError "gone" [itemA] = [itemA]) :=
  ⟨by decide, c6_stale_completion_noop [itemA] "gone" exampleData (by decide)⟩

/-- C7: if no item is SUCCESS with non-null data, the export produces no
file. -/
theorem c7_export_without_success_noop (items : List InvoiceSessionItem)
    (h : ∀ i ∈ items, ¬(i.status = AppStatus.SUCCESS ∧ i.result.isSome)) :
    handleExportCSV items = none := by
  have hempty : successItems items = [] := by
    apply List.filter_eq_nil_iff.mpr
    intro a ha
    simp only [Bool.and_eq_true, beq_iff_eq]
    exact fun hh => h a ha ⟨hh.1, hh.2⟩
  unfold handleExportCSV
  rw [hempty]
  rfl

/-- Witness for C7: exporting a store with one IDLE and one ERROR item
produces nothing. -/
theorem c7_witness :
    (∀ i ∈ [itemA, itemBError], ¬(i.status = AppStatus.SUCCESS ∧ i.result.isSome)) ∧
    handleExportCSV [itemA, itemBError] = none :=
  ⟨by decide, c7_export_without_success_noop [itemA, itemBError] (by decide)⟩

/-- C8: every analysis run (initial or retry) first applies the ANALYZING
update that clears the prior error — the trace starts with the `mark` event —
and at the moment the endpoint request is issued, the store is exactly the
marked store, in which the target item's status is ANALYZING and its error is
cleared. -/
theorem c8_mark_before_request
    (encode : JsFile → Except Unit String) (endpoint : String → Except Unit InvoiceData)
    (item : InvoiceSessionItem) (s : List InvoiceSessionItem) :
    (analyzeItem encode endpoint item s).2.head? = some (ExEvent.mark item.id) ∧
    ∀ st, ExEvent.request item.id st ∈ (analyzeItem encode endpoint item s).2 →
      st = markAnalyzing item.id s ∧
      ∀ i ∈ st, i.id = item.id → i.status = AppStatus.ANALYZING ∧ i.error = none := by
  cases henc : encode item.file with
  | error e =>
    constructor
    · simp [analyzeItem, henc]
    · intro st hst
      simp [analyzeItem, henc] at hst
  | ok base64 =>
    cases hend : endpoint base64 with
    | ok r =>
      constructor
      · simp [analyzeItem, henc, hend]
      · intro st hst
        simp only [analyzeItem, henc, hend, List.mem_cons, List.not_mem_nil, or_false,
          ExEvent.request.injEq, true_and, reduceCtorEq, false_or] at hst
        subst hst
        exact ⟨rfl, markAnalyzing_target item.id s⟩
    | error e =>
      constructor
      · simp [analyzeItem, henc, hend]
      · intro st hst
        simp only [analyzeItem, henc, hend, List.mem_cons, List.not_mem_nil, or_false,
          ExEvent.request.injEq, true_and, reduceCtorEq, false_or] at hst
        subst hst
        exact ⟨rfl, markAnalyzing_target item.id s⟩

/-- Witness for C8 on a concrete successful run: the request is issued against
the marked one-item store. -/
theorem c8_witness :
    ExEvent.request itemA.id (markAnalyzing itemA.id [itemA]) ∈
        (analyzeItem encOk endOk itemA [itemA]).2 ∧
      markAnalyzing itemA.id [itemA] = markAnalyzing itemA.id [itemA] ∧
      ∀ i ∈ markAnalyzing itemA.id [itemA], i.id = itemA.id →
        i.status = AppStatus.ANALYZING ∧ i.error = none :=
  ⟨by decide, (c8_mark_before_request encOk endOk itemA [itemA]).2
    (markAnalyzing itemA.id [itemA]) (by decide)⟩

/-- Spec-side row concatenation: one row string per document, in order. -/
def concatRows (l : List String) : String :=
  l.foldr (fun a b => a ++ b) ""

theorem foldl_append_rows (row : InvoiceSessionItem → String) :
    ∀ (l : List InvoiceSessionItem) (acc : String),
      l.foldl (fun a it => a ++ row it ++ "\n") acc =
        acc ++ concatRows (l.map (fun it => row it ++ "\n")) := by
  intro l
  induction l with
  | nil => intro acc; simp [concatRows]
  | cons x xs ih =>
    intro acc
    simp only [List.foldl_cons, List.map_cons]
    rw [ih (acc ++ row x ++ "\n")]
    simp only [concatRows, List.foldr_cons]
    simp [String.append_assoc]

/-- The exact blob content of the spec's example session: one successful
document (`exampleData`) and one failed document. -/
def exampleCSV : String :=
  "\uFEFF" ++
  "File Name,Invoice Date,Invoice Number,PO Number,Quotation Number,Currency,Items Details,Invoice Total Amount\n" ++
  "\"invoice1.jpg\",\"2024-01-01\",\"INV-001\",\"\",\"\",\"USD\",\"Widget (Qty: 2, Unit: 500, Total: 1000)\",1000\n"

set_option maxRecDepth 8192 in
/-- C2: the exporter emits exactly one row per SUCCESS document with non-null
data (closed form of the produced CSV); valid line items are exactly the
document's items with non-zero total; and on the spec's example session — one
document analyzed successfully to `exampleData`, one failed — the produced CSV
is a one-row file whose items cell reads
`Widget (Qty: 2, Unit: 500, Total: 1000)`. -/
theorem c2_export_one_row_per_success (items : List InvoiceSessionItem) :
    handleExportCSV items =
      (if ((successItems items).length == 0) = true then none
       else some ("\uFEFF" ++ ((headerLine ++ "\n") ++
         concatRows ((successItems items).map (fun it => rowOf it ++ "\n"))))) ∧
    (∀ data : InvoiceData, ∀ lineItem ∈ validItems data,
      lineItem.total ≠ 0 ∧ lineItem ∈ data.items) ∧
    itemsSummary exampleData = "Widget (Qty: 2, Unit: 500, Total: 1000)" ∧
    handleExportCSV [itemASuccess, itemBError] = some exampleCSV := by
  refine ⟨?_, ?_, by decide, by decide⟩
  · by_cases hb : ((successItems items).length == 0) = true
    · simp [handleExportCSV, hb]
    · simp only [handleExportCSV, hb, if_false, Bool.false_eq_true]
      rw [foldl_append_rows rowOf (successItems items) (headerLine ++ "\n")]
  · intro data lineItem hmem
    have h := List.mem_filter.mp hmem
    refine ⟨?_, h.1⟩
    have := h.2
    simpa using this

/-- Witness for C2 at the example data: the Widget line item survives the
zero-total filter. -/
theorem c2_witness :
    { description := "Widget", quantity := 2, unitPrice := 500, total := 1000 : LineItem } ∈
        validItems exampleData ∧
      ({ description := "Widget", quantity := 2, unitPrice := 500, total := 1000 : LineItem }.total ≠ 0 ∧
        { description := "Widget", quantity := 2, unitPrice := 500, total := 1000 : LineItem } ∈
          exampleData.items) :=
  ⟨by decide, (c2_export_one_row_per_success []).2.1 exampleData
    { description := "Widget", quantity := 2, unitPrice := 500, total := 1000 } (by decide)⟩

theorem find_by_id_unique (id : String) :
    ∀ (items : List InvoiceSessionItem), (items.map (fun i => i.id)).Nodup →
      ∀ item ∈ items, item.id = id → items.find? (fun i => i.id == id) = some item := by
  intro items
  induction items with
  | nil => intro _ item hm; cases hm
  | cons h t ih =>
    intro hnodup item hm hid
    simp only [List.map_cons, List.nodup_cons, List.mem_map] at hnodup
    by_cases hh : (h.id == id) = true
    · rw [@List.find?_cons_of_pos _ (fun i => i.id == id) h t hh]
      rcases List.mem_cons.mp hm with rfl | hmt
      · rfl
      · exfalso
        exact hnodup.1 ⟨item, hmt, by rw [hid]; exact (beq_iff_eq.mp hh).symm⟩
    · rw [@List.find?_cons_of_neg _ (fun i => i.id == id) h t hh]
      rcases List.mem_cons.mp hm with rfl | hmt
      · exact absurd (beq_iff_eq.mpr hid) hh
      · exact ih hnodup.2 item hmt hid

theorem filter_ne_id_length (id : String) :
    ∀ (items : List InvoiceSessionItem), (items.map (fun i => i.id)).Nodup →
      ∀ item ∈ items, item.id = id →
        items.length = (items.filter (fun i => i.id != id)).length + 1 := by
  intro items
  induction items with
  | nil => intro _ item hm; cases hm
  | cons h t ih =>
    intro hnodup item hm hid
    simp only [List.map_cons, List.nodup_cons, List.mem_map] at hnodup
    by_cases hh : h.id = id
    · have hkeep : t.filter (fun i => i.id != id) = t := by
        apply List.filter_eq_self.mpr
        intro a ha
        simp only [bne_iff_ne, ne_eq]
        intro haid
        exact hnodup.1 ⟨a, ha, by rw [haid, hh]⟩
      simp [List.filter_cons, hh, hkeep]
    · rcases List.mem_cons.mp hm with rfl | hmt
      · exact absurd hid hh
      · have hlen := ih hnodup.2 item hmt hid
        have hkeep : (h.id != id) = true := bne_iff_ne.mpr hh
        simp only [List.filter_cons]
        rw [if_pos hkeep]
        simp only [List.length_cons]
        omega

/-- C9: removing an item by id deletes exactly that item (every other item is
retained, the removed one is gone, and under unique ids the collection shrinks
by exactly one), revokes that item's preview reference exactly once (and
revokes nothing when the id is absent); if the removed item was the active
selection, the first remaining item — or none — becomes active, and otherwise
the selection is untouched. -/
theorem c9_remove_item (items : List InvoiceSessionItem) (act : Option String) (id : String)
    (hnodup : (items.map (fun i => i.id)).Nodup) :
    (∀ i ∈ items, i.id ≠ id → i ∈ (handleRemoveItem id items act).1) ∧
    (∀ i ∈ (handleRemoveItem id items act).1, i ∈ items ∧ i.id ≠ id) ∧
    (∀ item ∈ items, item.id = id →
      (handleRemoveItem id items act).2.2 = [item.previewUrl] ∧
      items.length = (handleRemoveItem id items act).1.length + 1) ∧
    ((∀ i ∈ items, i.id ≠ id) → (handleRemoveItem id items act).2.2 = []) ∧
    (act = some id →
      (handleRemoveItem id items act).2.1 =
        ((handleRemoveItem id items act).1.head?).map (fun i => i.id)) ∧
    (act ≠ some id → (handleRemoveItem id items act).2.1 = act) := by
  refine ⟨?_, ?_, ?_, ?_, ?_, ?_⟩
  · intro i hi hne
    simp only [handleRemoveItem]
    exact List.mem_filter.mpr ⟨hi, bne_iff_ne.mpr hne⟩
  · intro i hi
    simp only [handleRemoveItem] at hi
    have := List.mem_filter.mp hi
    exact ⟨this.1, bne_iff_ne.mp this.2⟩
  · intro item hm hid
    constructor
    · simp only [handleRemoveItem, find_by_id_unique id items hnodup item hm hid]
    · simpa only [handleRemoveItem] using filter_ne_id_length id items hnodup item hm hid
  · intro habsent
    have : items.find? (fun i => i.id == id) = none := by
      apply List.find?_eq_none.mpr
      intro a ha
      simp only [beq_iff_eq]
      exact habsent a ha
    simp only [handleRemoveItem, this]
  · intro hact
    simp only [handleRemoveItem, hact, if_true, if_pos rfl]
    cases items.filter (fun i => i.id != id) with
    | nil => rfl
    | cons f rest => rfl
  · intro hact
    simp only [handleRemoveItem, if_neg hact]

/-- Witness for C9: removing the active item "a" from a two-item session
revokes its preview once and shrinks the session by one. -/
theorem c9_witness :
    (([itemA, itemB].map (fun i => i.id)).Nodup ∧ itemA ∈ [itemA, itemB] ∧ itemA.id = "a") ∧
    ((handleRemoveItem "a" [itemA, itemB] (some "a")).2.2 = [itemA.previewUrl] ∧
      [itemA, itemB].length = (handleRemoveItem "a" [itemA, itemB] (some "a")).1.length + 1) :=
  ⟨⟨by decide, by decide, rfl⟩,
   (c9_remove_item [itemA, itemB] (some "a") "a" (by decide)).2.2.1 itemA (by decide) rfl⟩

theorem scanBase64_sound :
    ∀ (l t r : List Char), scanBase64 l = some (t, r) →
      l = t ++ ";base64,".data ++ r ∧ ∀ c ∈ t, regexDotChar c := by
  intro l
  induction l with
  | nil => intro t r h; cases h
  | cons c rest ih =>
    intro t r h
    unfold scanBase64 at h
    by_cases hpre : (";base64,".data.isPrefixOf (c :: rest)) = true
    · rw [if_pos hpre] at h
      simp only [Option.some.injEq, Prod.mk.injEq] at h
      obtain ⟨rfl, rfl⟩ := h
      have hp := List.prefix_iff_eq_append.mp (List.isPrefixOf_iff_prefix.mp hpre)
      refine ⟨?_, by intro x hx; cases hx⟩
      rw [List.nil_append]
      exact hp.symm
    · rw [if_neg hpre] at h
      by_cases hdot : regexDotChar c = true
      · rw [if_pos hdot] at h
        cases hscan : scanBase64 rest with
        | none => rw [hscan] at h; cases h
        | some p =>
          rw [hscan] at h
          obtain ⟨t', r'⟩ := p
          simp only [Option.map_some', Option.some.injEq, Prod.mk.injEq] at h
          obtain ⟨rfl, rfl⟩ := h
          obtain ⟨hrest, hchars⟩ := ih t' r' hscan
          constructor
          · simp only [List.cons_append, List.append_assoc] at hrest ⊢
            rw [← hrest]
          · intro x hx
            rcases List.mem_cons.mp hx with rfl | hxm
            · exact hdot
            · exact hchars x hxm
      · rw [if_neg hdot] at h
        cases h

/-- C10: an input that does not begin with a `data:<type>;base64,` header is
passed to the endpoint unmodified, with the declared content type defaulted to
`image/jpeg`. -/
theorem c10_no_header_passthrough (s : String) (h : ¬ HasDataUriHeader s) :
    buildInlineData s = ("image/jpeg", s) := by
  cases hmatch : matchDataUriHeader s with
  | none => simp [buildInlineData, hmatch]
  | some p =>
    exfalso
    apply h
    unfold matchDataUriHeader at hmatch
    by_cases hpre : ("data:".data.isPrefixOf s.data) = true
    · rw [if_pos hpre] at hmatch
      obtain ⟨hdrop, hchars⟩ := scanBase64_sound (s.data.drop 5) p.1 p.2
        (by rw [hmatch])
      have hp := List.prefix_iff_eq_append.mp (List.isPrefixOf_iff_prefix.mp hpre)
      refine ⟨p.1, p.2, ?_, hchars⟩
      have h5 : ("data:".data).length = 5 := rfl
      rw [h5] at hp
      calc s.data = "data:".data ++ s.data.drop 5 := hp.symm
        _ = "data:".data ++ (p.1 ++ ";base64,".data ++ p.2) := by rw [← hdrop]
        _ = "data:".data ++ p.1 ++ ";base64,".data ++ p.2 := by
              simp [List.append_assoc]
    · rw [if_neg hpre] at hmatch
      cases hmatch

/-- Witness for C10 on the headerless input "hello". -/
theorem c10_witness :
    (¬ HasDataUriHeader "hello") ∧ buildInlineData "hello" = ("image/jpeg", "hello") := by
  have hno : ¬ HasDataUriHeader "hello" := by
    rintro ⟨t, rest, heq, -⟩
    rw [show "hello".data = ['h', 'e', 'l', 'l', 'o'] from rfl,
      show "data:".data = ['d', 'a', 't', 'a', ':'] from rfl] at heq
    simp at heq
  exact ⟨hno, c10_no_header_passthrough "hello" hno⟩

theorem get?_append_cases {α : Type} (a b : List α) (p : Nat) (x : α)
    (h : (a ++ b).get? p = some x) :
    (p < a.length ∧ a.get? p = some x) ∨
      (a.length ≤ p ∧ b.get? (p - a.length) = some x) := by
  by_cases hp : p < a.length
  · exact Or.inl ⟨hp, by rw [← List.get?_append hp]; exact h⟩
  · have hge := Nat.le_of_not_lt hp
    exact Or.inr ⟨hge, by rw [← List.get?_append_right hge]; exact h⟩

theorem analyzeItem_trace_ident (encode : JsFile → Except Unit String)
    (endpoint : String → Except Unit InvoiceData)
    (item : InvoiceSessionItem) (s : List InvoiceSessionItem) :
    ∀ e ∈ (analyzeItem encode endpoint item s).2, e.ident = item.id := by
  intro e he
  cases henc : encode item.file with
  | error u =>
    simp only [analyzeItem, henc, List.mem_cons, List.not_mem_nil, or_false] at he
    rcases he with rfl | rfl <;> rfl
  | ok base64 =>
    cases hend : endpoint base64 with
    | ok r =>
      simp only [analyzeItem, henc, hend, List.mem_cons, List.not_mem_nil, or_false] at he
      rcases he with rfl | rfl | rfl <;> rfl
    | error u =>
      simp only [analyzeItem, henc, hend, List.mem_cons, List.not_mem_nil, or_false] at he
      rcases he with rfl | rfl | rfl <;> rfl

theorem runBatch_trace_ident (encode : JsFile → Except Unit String)
    (endpoint : String → Except Unit InvoiceData) :
    ∀ (ps s : List InvoiceSessionItem), ∀ e ∈ (runBatch encode endpoint ps s).2,
      e.ident ∈ ps.map (fun i => i.id) := by
  intro ps
  induction ps with
  | nil => intro s e he; simp [runBatch] at he
  | cons it rest ih =>
    intro s e he
    simp only [runBatch] at he
    rcases List.mem_append.mp he with hA | hB
    · simp only [List.map_cons, List.mem_cons]
      exact Or.inl (analyzeItem_trace_ident encode endpoint it s e hA)
    · simp only [List.map_cons, List.mem_cons]
      exact Or.inr (ih _ e hB)

theorem runBatch_no_overlap (encode : JsFile → Except Unit String)
    (endpoint : String → Except Unit InvoiceData) :
    ∀ (ps s : List InvoiceSessionItem), (ps.map (fun i => i.id)).Nodup →
      ∀ (j p q : Nat) (hj1 : j < ps.length) (hj2 : j + 1 < ps.length)
        (st : List InvoiceSessionItem),
        (runBatch encode endpoint ps s).2.get? q =
          some (ExEvent.final (ps.get ⟨j, hj1⟩).id) →
        (runBatch encode endpoint ps s).2.get? p =
          some (ExEvent.request (ps.get ⟨j + 1, hj2⟩).id st) →
        q < p := by
  intro ps
  induction ps with
  | nil =>
    intro s _ j p q hj1 hj2
    exact absurd hj2 (by simp)
  | cons it rest ih =>
    intro s hnodup j p q hj1 hj2 st hq hp
    simp only [List.map_cons, List.nodup_cons, List.mem_map] at hnodup
    have htr : (runBatch encode endpoint (it :: rest) s).2 =
        (analyzeItem encode endpoint it s).2 ++
          (runBatch encode endpoint rest (analyzeItem encode endpoint it s).1).2 := rfl
    rw [htr] at hq hp
    cases j with
    | zero =>
      have hrestlen : 0 < rest.length := by
        simp only [List.length_cons] at hj2
        omega
      have h1 : (it :: rest).get ⟨0 + 1, hj2⟩ = rest.get ⟨0, hrestlen⟩ := rfl
      rcases get?_append_cases _ _ q _ hq with ⟨hqlen, _⟩ | ⟨hqge, hqB⟩
      · rcases get?_append_cases _ _ p _ hp with ⟨hplen, hpA⟩ | ⟨hpge, _⟩
        · exfalso
          have hmem := List.get?_mem hpA
          have hident := analyzeItem_trace_ident encode endpoint it s _ hmem
          rw [h1] at hident
          exact hnodup.1 ⟨rest.get ⟨0, hrestlen⟩, List.get_mem rest 0 hrestlen, hident⟩
        · omega
      · exfalso
        have hmem := List.get?_mem hqB
        have hid := runBatch_trace_ident encode endpoint rest _ _ hmem
        exact hnodup.1 (by simpa using hid)
    | succ k =>
      have hk1 : k < rest.length := by
        simp only [List.length_cons] at hj1
        omega
      have hk2 : k + 1 < rest.length := by
        simp only [List.length_cons] at hj2
        omega
      have hgk : (it :: rest).get ⟨k + 1, hj1⟩ = rest.get ⟨k, hk1⟩ := rfl
      have hgk1 : (it :: rest).get ⟨k + 1 + 1, hj2⟩ = rest.get ⟨k + 1, hk2⟩ := rfl
      rw [hgk] at hq
      rw [hgk1] at hp
      rcases get?_append_cases _ _ q _ hq with ⟨_, hqA⟩ | ⟨hqge, hqB⟩
      · exfalso
        have hmem := List.get?_mem hqA
        have hident := analyzeItem_trace_ident encode endpoint it s _ hmem
        exact hnodup.1 ⟨rest.get ⟨k, hk1⟩, List.get_mem rest k hk1, hident⟩
      · rcases get?_append_cases _ _ p _ hp with ⟨_, hpA⟩ | ⟨hpge, hpB⟩
        · exfalso
          have hmem := List.get?_mem hpA
          have hident := analyzeItem_trace_ident encode endpoint it s _ hmem
          exact hnodup.1 ⟨rest.get ⟨k + 1, hk2⟩, List.get_mem rest (k + 1) hk2, hident⟩
        · have := ih _ hnodup.2 k (p - (analyzeItem encode endpoint it s).2.length)
            (q - (analyzeItem encode endpoint it s).2.length) hk1 hk2 st hqB hpB
          omega

/-- C3: the batch selects exactly the documents whose status is IDLE or ERROR
at batch start, in list order, and processes them strictly sequentially: in
the batch's event trace, an endpoint request for selected document j+1 can
only occur after the completion update of selected document j has been
applied. -/
theorem c3_batch_sequential (encode : JsFile → Except Unit String)
    (endpoint : String → Except Unit InvoiceData) (items : List InvoiceSessionItem)
    (hnodup : ((pendingFilter items).map (fun i => i.id)).Nodup) :
    pendingFilter items =
      items.filter (fun i => i.status == AppStatus.IDLE || i.status == AppStatus.ERROR) ∧
    (handleAnalyzeAll encode endpoint items).2 =
      (runBatch encode endpoint (pendingFilter items) items).2 ∧
    ∀ (j p q : Nat) (hj1 : j < (pendingFilter items).length)
      (hj2 : j + 1 < (pendingFilter items).length) (st : List InvoiceSessionItem),
      (handleAnalyzeAll encode endpoint items).2.get? q =
        some (ExEvent.final (((pendingFilter items).get ⟨j, hj1⟩).id)) →
      (handleAnalyzeAll encode endpoint items).2.get? p =
        some (ExEvent.request (((pendingFilter items).get ⟨j + 1, hj2⟩).id) st) →
      q < p :=
  ⟨rfl, rfl, fun j p q hj1 hj2 st hq hp =>
    runBatch_no_overlap encode endpoint (pendingFilter items) items hnodup
      j p q hj1 hj2 st hq hp⟩

/-- Witness for C3 on a two-document batch: the completion of document "a"
(at trace position 2) precedes the request for document "b" (at position
4). -/
theorem c3_witness :
    ((pendingFilter [itemA, itemB]).map (fun i => i.id)).Nodup ∧
    (handleAnalyzeAll encOk endOk [itemA, itemB]).2.get? 2 =
      some (ExEvent.final (((pendingFilter [itemA, itemB]).get ⟨0, by decide⟩).id)) ∧
    (handleAnalyzeAll encOk endOk [itemA, itemB]).2.get? 4 =
      some (ExEvent.request (((pendingFilter [itemA, itemB]).get ⟨0 + 1, by decide⟩).id)
        (markAnalyzing itemB.id (analyzeItem encOk endOk itemA [itemA, itemB]).1)) ∧
    (2 : Nat) < 4 := by
  refine ⟨by decide, by decide, by decide, ?_⟩
  exact (c3_batch_sequential encOk endOk [itemA, itemB] (by decide)).2.2 0 4 2
    (by decide) (by decide)
    (markAnalyzing itemB.id (analyzeItem encOk endOk itemA [itemA, itemB]).1)
    (by decide) (by decide)

/-- The store reached by the overlapping-extraction schedule:  both items
uploaded IDLE, the user clicks 全部識別 (the batch snapshots `[itemA, itemB]`),
the batch's extraction of `itemA` completes successfully, and — while the
batch is suspended — the user clicks 開始識別此張 on the still-IDLE `itemB`,
whose extraction also completes successfully.  Both documents are now SUCCESS,
but the batch still holds `itemB` in its snapshot and has not run it yet. -/
def overlapStore : List InvoiceSessionItem :=
  (analyzeItem encOk endOk itemB (analyzeItem encOk endOk itemA [itemA, itemB]).1).1

/-- C4: the claimed lifecycle is the spec's intent, but the code violates it
on a reachable overlapping-extraction schedule.  Nothing disables the analyze
buttons while a batch is in flight, and `handleAnalyzeAll` runs `analyzeItem`
on its start-time snapshot without re-checking status: with both items
initially pending (first conjunct) and `itemB` still IDLE after the batch's
first document (second conjunct, so the manual-analyze button renders for it),
the schedule of `overlapStore` leaves `itemB` SUCCESS (third conjunct); the
batch's own later `analyzeItem` call on `itemB` then re-marks it ANALYZING
(App.tsx line 49 — a SUCCESS → ANALYZING transition, fourth conjunct) and,
when that extraction fails, sets it ERROR (line 57 — SUCCESS → ERROR overall,
fifth conjunct), with `itemB` never removed. -/
theorem c4_overlap_success_regression :
    pendingFilter [itemA, itemB] = [itemA, itemB] ∧
    (((analyzeItem encOk endOk itemA [itemA, itemB]).1.find? (fun i => i.id == "b")).map
      (fun i => i.status) = some AppStatus.IDLE) ∧
    ((overlapStore.find? (fun i => i.id == "b")).map (fun i => i.status) =
      some AppStatus.SUCCESS) ∧
    (((markAnalyzing itemB.id overlapStore).find? (fun i => i.id == "b")).map
      (fun i => i.status) = some AppStatus.ANALYZING) ∧
    ((((analyzeItem encOk endErr itemB overlapStore).1).find? (fun i => i.id == "b")).map
      (fun i => i.status) = some AppStatus.ERROR) := by
  refine ⟨by decide, by decide, by decide, by decide, by decide⟩
